import Mathlib

/-!
Verification of the symbol-resolution and dependency-graph analysis engine of
the ProxmoxScripts repository (`.check/VerifySourceCalls.py` and
`.check/DependencyCycleCheck.py`).

Strings are embedded as `List Char`; each Python source function is translated
to an executable Lean definition of the same name.  File contents are embedded
as lists of lines (each line a `List Char`, without its trailing newline).
-/

namespace ProxmoxCheck

/-- A string, embedded as its list of characters. -/
abbrev Str := List Char

/-- Shorthand turning a Lean string literal into the embedded representation. -/
def cs (s : String) : Str := s.toList

/-- The whitespace class used by Python `str.strip` / `str.split` / regex `\s`
(ASCII subset, which is all that occurs in the analyzed scripts). -/
def pyIsSpace (c : Char) : Bool :=
  c == ' ' || c == '\t' || c == '\n' || c == '\r' || c == '\x0b' || c == '\x0c'

/-- Python `str.lstrip()`. -/
def pyLstrip (l : Str) : Str := l.dropWhile pyIsSpace

/-- Python `str.rstrip()`. -/
def pyRstrip (l : Str) : Str := (l.reverse.dropWhile pyIsSpace).reverse

/-- Python `str.strip()`. -/
def pyStrip (l : Str) : Str := pyRstrip (pyLstrip l)

/-- Word accumulator loop for Python `str.split()`: `cur` holds the current
word reversed. -/
def pySplitGo (cur : Str) : Str → List Str
  | [] => if cur.isEmpty then [] else [cur.reverse]
  | c :: rest =>
    if pyIsSpace c then
      if cur.isEmpty then pySplitGo [] rest
      else cur.reverse :: pySplitGo [] rest
    else pySplitGo (c :: cur) rest

/-- Python `str.split()` (split on whitespace runs, no empty fields). -/
def pySplit (l : Str) : List Str := pySplitGo [] l

/-- Association-list lookup, modelling Python dict subscripting / `in`. -/
def lookupD {ν : Type} (k : Str) : List (Str × ν) → Option ν
  | [] => none
  | (k0, v0) :: rest => if k0 = k then some v0 else lookupD k rest

/-- Python dict assignment `d[k] = v`: updates in place if the key exists
(keeping its position), otherwise appends at the end (insertion order). -/
def dictInsert {ν : Type} (k : Str) (v : ν) : List (Str × ν) → List (Str × ν)
  | [] => [(k, v)]
  | (k0, v0) :: rest =>
    if k0 = k then (k, v) :: rest else (k0, v0) :: dictInsert k v rest

/-- Python `set.add`: no duplicates, insertion order retained. -/
def setAdd {α : Type} [DecidableEq α] (x : α) (s : List α) : List α :=
  if x ∈ s then s else s ++ [x]

/-- Lexicographic comparison of strings on character codes, matching Python's
string ordering for the ASCII filenames involved. -/
def strLe : Str → Str → Bool
  | [], _ => true
  | _ :: _, [] => false
  | a :: as, b :: bs => if a < b then true else if b < a then false else strLe as bs

/-- Insert into a sorted list of strings. -/
def insertSorted (x : Str) : List Str → List Str
  | [] => [x]
  | y :: ys => if strLe x y then x :: y :: ys else y :: insertSorted x ys

/-- Python `sorted` on a collection of strings (insertion sort). -/
def pySorted (l : List Str) : List Str := l.foldr insertSorted []

/-! ## Fix synthesizer (`VerifySourceCalls.fix_script` and helpers) -/

/-- The canonical `source`-keyword include line
(`f'source "$\x7bUTILITYPATH\x7d/\x7br\x7d"'` in `fix_script`, without a
trailing newline since lines are embedded newline-free). -/
def sourceLine (f : Str) : Str := cs "source \"$\x7bUTILITYPATH\x7d/" ++ f ++ cs "\""

/-- The dot-alias include line (`f'. "$\x7bUTILITYPATH\x7d/\x7br\x7d"'`). -/
def dotLine (f : Str) : Str := cs ". \"$\x7bUTILITYPATH\x7d/" ++ f ++ cs "\""

/-- `should_remove_source_line`: the stripped line equals the `source` form or
the dot form of some file slated for removal. -/
def should_remove_source_line (line : Str) (removeSources : List Str) : Bool :=
  removeSources.any (fun r => pyStrip line == sourceLine r || pyStrip line == dotLine r)

/-- `find_comment_block_end`: index of the first line that is neither blank nor
`#`-prefixed (after left-stripping); `length` if every line is. -/
def find_comment_block_end : List Str → Nat
  | [] => 0
  | line :: rest =>
    let stripped := pyLstrip line
    if !(cs "#").isPrefixOf stripped && !stripped.isEmpty then 0
    else find_comment_block_end rest + 1

/-- The new include lines `fix_script` prepares: one canonical `source` line per
added file, in sorted order, skipping files whose canonical line already occurs
(stripped comparison) somewhere in the original. -/
def linesToInsert (lines : List Str) (addSources : List Str) : List Str :=
  (pySorted addSources).filterMap fun a =>
    if lines.any (fun l => pyStrip l == pyStrip (sourceLine a)) then none
    else some (sourceLine a)

/-- The rebuild loop of `fix_script`: walk the numbered lines, emit the new
include block just before the line at `insertIdx`, and drop removed lines. -/
def rebuildLines (insertIdx : Nat) (toIns : List Str) (removeSources : List Str) :
    Nat → List Str → List Str
  | _, [] => []
  | i, l :: ls =>
    (if i == insertIdx && !toIns.isEmpty then toIns else [])
      ++ (if should_remove_source_line l removeSources then [] else [l])
      ++ rebuildLines insertIdx toIns removeSources (i + 1) ls

/-- `fix_script` modelled as a pure rewrite of the file's line list. -/
def fix_script (lines : List Str) (addSources removeSources : List Str) :
    List Str :=
  if addSources.isEmpty && removeSources.isEmpty then lines
  else
    let insertIdx := find_comment_block_end lines
    let toIns := linesToInsert lines addSources
    let base := rebuildLines insertIdx toIns removeSources 0 lines
    if insertIdx == lines.length && !toIns.isEmpty then base ++ toIns else base

/-! ## Symbol extractor (`VerifySourceCalls` regexes and parsing functions) -/

/-- The character class `[a-zA-Z0-9_]` used inside `FUNC_DEF_REGEX` and
`CALL_REGEX`. -/
def isWordChar (c : Char) : Bool := c.isAlpha || c.isDigit || c == '_'

/-- Match a literal string at the head of the input, returning the remainder. -/
def matchLit : List Char → List Char → Option (List Char)
  | [], rest => some rest
  | c :: cs0, r :: rs => if r = c then matchLit cs0 rs else none
  | _ :: _, [] => none

/-- The name-and-parens part of `FUNC_DEF_REGEX`:
`(__[a-zA-Z0-9_]+__)\s*\(\)\s*\x7b` matched at the head of the input.  The
captured name is the maximal word-character run, which the regex's greedy
backtracking forces to start and end with `__` and to contain at least one
inner character. -/
def matchDunderDef (cs0 : List Char) : Option Str :=
  let w := cs0.takeWhile isWordChar
  let rest := cs0.drop w.length
  if 5 ≤ w.length && w.take 2 == cs "__" && w.reverse.take 2 == cs "__" then
    match rest.dropWhile pyIsSpace with
    | '(' :: ')' :: r2 =>
      match r2.dropWhile pyIsSpace with
      | '\x7b' :: _ => some w
      | _ => none
    | _ => none
  else none

/-- `FUNC_DEF_REGEX.search`: the regex
`^(?:function\s+)?(__[a-zA-Z0-9_]+__)\s*\(\)\s*\x7b` applied to the given
string (anchored at position 0 by the `^`), returning the captured name. -/
def funcDefSearch (l : Str) : Option Str :=
  match matchLit (cs "function") l with
  | some rest =>
    match rest with
    | c :: r => if pyIsSpace c then matchDunderDef (r.dropWhile pyIsSpace) else none
    | [] => none
  | none => matchDunderDef l

/-- `CALL_REGEX.match`: the whole token matches `^__[a-zA-Z0-9_]+__$`. -/
def callRegexMatch (t : Str) : Bool :=
  5 ≤ t.length && t.all isWordChar && t.take 2 == cs "__" && t.reverse.take 2 == cs "__"

/-- The character class `[a-zA-Z0-9_.-]` of the include-target group in
`SOURCE_REGEX`. -/
def isSourceNameChar (c : Char) : Bool :=
  c.isAlpha || c.isDigit || c == '_' || c == '.' || c == '-'

/-- The tail of `SOURCE_REGEX` after the inclusion keyword and whitespace:
`"?\$\x7b?UTILITYPATH\x7d?/([a-zA-Z0-9_.-]+)"?`, returning the captured
filename. -/
def sourcePathTarget (l : Str) : Option Str :=
  let l1 := match l with
    | '"' :: r => r
    | other => other
  match l1 with
  | '$' :: l2 =>
    let l3 := match l2 with
      | '\x7b' :: r => r
      | other => other
    match matchLit (cs "UTILITYPATH") l3 with
    | some l4 =>
      let l5 := match l4 with
        | '\x7d' :: r => r
        | other => other
      match l5 with
      | '/' :: l6 =>
        let name := l6.takeWhile isSourceNameChar
        if name.isEmpty then none else some name
      | _ => none
    | none => none
  | _ => none

/-- `SOURCE_REGEX.search`: the regex
`^\s*(?:source|\.)\s+"?\$\x7b?UTILITYPATH\x7d?/([a-zA-Z0-9_.-]+)"?` (anchored
at position 0), returning the captured utility filename. -/
def sourceRegexMatch (l : Str) : Option Str :=
  let l0 := l.dropWhile pyIsSpace
  match matchLit (cs "source") l0 with
  | some rest =>
    match rest with
    | c :: r => if pyIsSpace c then sourcePathTarget (r.dropWhile pyIsSpace) else none
    | [] => none
  | none =>
    match l0 with
    | '.' :: rest =>
      match rest with
      | c :: r => if pyIsSpace c then sourcePathTarget (r.dropWhile pyIsSpace) else none
      | [] => none
    | _ => none

/-- `parse_functions_in_file`: the set of function names whose definition line
matches `FUNC_DEF_REGEX` against the right-stripped line. -/
def parse_functions_in_file (lines : List Str) : List Str :=
  lines.foldl (fun acc l =>
    match funcDefSearch (pyRstrip l) with
    | some n => setAdd n acc
    | none => acc) []

/-- `parse_script_for_includes_and_local_funcs`: included utility filenames
(via `SOURCE_REGEX` on each stripped line) and locally defined functions. -/
def parse_script_for_includes_and_local_funcs (lines : List Str) :
    List Str × List Str :=
  (lines.foldl (fun acc l =>
    match sourceRegexMatch (pyStrip l) with
    | some inc => setAdd inc acc
    | none => acc) [],
   parse_functions_in_file lines)

/-- The reserved `__base__` token excluded from call collection. -/
def baseToken : Str := cs "__base__"

/-- `gather_function_calls`: call tokens from every line that is not a
function-definition line, obtained by whitespace-splitting the stripped line
and keeping tokens that fully match `CALL_REGEX`, except `__base__`. -/
def gather_function_calls (lines : List Str) : List Str :=
  lines.foldl (fun acc l =>
    if (funcDefSearch (pyStrip l)).isSome then acc
    else
      (pySplit (pyStrip l)).foldl (fun acc2 t =>
        if callRegexMatch t then
          if t = baseToken then acc2 else setAdd t acc2
        else acc2) acc) []

/-! ## Call resolver (`VerifySourceCalls.analyze_script` and `main`) -/

/-- Rendering of a Python set of strings, for the ambiguous-definition
reason message. -/
def pySetRepr (files : List Str) : Str :=
  cs "\x7b" ++ (List.intercalate (cs ", ")
    (files.map fun f => '\x27' :: (f ++ ['\x27']))) ++ cs "\x7d"

/-- Reason string `"No utility defines it"`. -/
def reasonUnknown : Str := cs "No utility defines it"

/-- Reason string `f'Needs source "\x7bonly_script\x7d"'`. -/
def reasonNeeds (f : Str) : Str := cs "Needs source \"" ++ f ++ cs "\""

/-- Reason string `f'Defined in multiple scripts: \x7bpossible_scripts\x7d'`. -/
def reasonMultiple (files : List Str) : Str :=
  cs "Defined in multiple scripts: " ++ pySetRepr files

/-- The inner loop of `build_global_function_map`: record each function of
one utility file into the global map. -/
def addFuncsToGlobal (uname : Str) (funcs : List Str)
    (gm : List (Str × List Str)) : List (Str × List Str) :=
  funcs.foldl (fun gm2 f =>
    match lookupD f gm2 with
    | some s => dictInsert f (setAdd uname s) gm2
    | none => dictInsert f [uname] gm2) gm

/-- `build_global_function_map`: function name → set of utility filenames
defining it, aggregated over every utility file. -/
def build_global_function_map (utilities : List (Str × List Str)) :
    List (Str × List Str) :=
  utilities.foldl (fun gm u => addFuncsToGlobal u.1 (parse_functions_in_file u.2) gm) []

/-- `parse_utility_functions`: the defined-function set of one utility file,
looked up by filename in the utilities directory (empty when absent, matching
the `os.path.isfile` guard). -/
def parse_utility_functions (utilities : List (Str × List Str)) (inc : Str) :
    List Str :=
  match lookupD inc utilities with
  | some lines => parse_functions_in_file lines
  | none => []

/-- Result triple of `analyze_script`. -/
structure AnalyzeResult where
  unknown_calls : List (Str × Str)
  used_includes : List Str
  all_includes : List Str
deriving DecidableEq, Repr

/-- The per-call classification step inside `analyze_script`'s loop. -/
def classifyStep (local_funcs all_includes : List Str)
    (utilities : List (Str × List Str)) (global_map : List (Str × List Str))
    (acc : List (Str × Str) × List Str) (call : Str) :
    List (Str × Str) × List Str :=
  if call ∈ local_funcs then acc
  else
    match all_includes.filter
        (fun inc => decide (call ∈ parse_utility_functions utilities inc)) with
    | [inc] => (acc.1, setAdd inc acc.2)
    | [] =>
      match lookupD call global_map with
      | none => (acc.1 ++ [(call, reasonUnknown)], acc.2)
      | some [only] => (acc.1 ++ [(call, reasonNeeds only)], acc.2)
      | some possible => (acc.1 ++ [(call, reasonMultiple possible)], acc.2)
    | multiple => (acc.1, multiple.foldl (fun u i => setAdd i u) acc.2)

/-- `analyze_script`: classify every gathered call token against local
definitions, declared includes, and the global map. -/
def analyze_script (scriptLines : List Str) (utilities : List (Str × List Str))
    (global_map : List (Str × List Str)) : AnalyzeResult :=
  let p := parse_script_for_includes_and_local_funcs scriptLines
  let calls := gather_function_calls scriptLines
  let r := calls.foldl (classifyStep p.2 p.1 utilities global_map) ([], [])
  ⟨r.1, r.2, p.1⟩

/-- The literal prefix `'Needs source "'` that `main` uses to split
`unknown_calls` into fixable missing includes and truly unknown calls. -/
def needsMarker : Str := cs "Needs source \""

/-- The split in `main` (lines 310–320): reasons starting with the
needs-source prefix yield a missing include (filename sliced out of the
reason); everything else stays truly unknown. -/
def mainSplit (unknown_calls : List (Str × Str)) :
    List Str × List (Str × Str) :=
  unknown_calls.foldl (fun acc e =>
    if needsMarker.isPrefixOf e.2 then
      (setAdd ((e.2.drop needsMarker.length).dropLast) acc.1, acc.2)
    else (acc.1, acc.2 ++ [e])) ([], [])

/-- Per-script findings as computed in `main`'s loop. -/
structure ScriptReport where
  truly_unknown : List (Str × Str)
  missing_includes : List Str
  unused_includes : List Str
deriving DecidableEq, Repr

/-- One iteration of `main`'s analysis loop for a script. -/
def script_report (scriptLines : List Str) (utilities : List (Str × List Str))
    (global_map : List (Str × List Str)) : ScriptReport :=
  let r := analyze_script scriptLines utilities global_map
  let ms := mainSplit r.unknown_calls
  ⟨ms.2, ms.1, r.all_includes.filter (fun i => decide (i ∉ r.used_includes))⟩

/-- `VerifySourceCalls.main` without `--fix`: analyze every script and exit.
The second component is the process exit status, which the source sets with an
unconditional `sys.exit(0)` after the loop. -/
def verify_main (scripts : List (List Str)) (utilities : List (Str × List Str)) :
    List ScriptReport × Nat :=
  let global_map := build_global_function_map utilities
  (scripts.map (fun s => script_report s utilities global_map), 0)

/-! ## Dependency cycle checker (`DependencyCycleCheck.py`) -/

/-- `Path(file_path).name`: the basename after the last slash. -/
def basename (p : Str) : Str := (p.reverse.takeWhile (fun c => c != '/')).reverse

/-- `parse_dependencies`: the set of utility names matched by `SOURCE_REGEX`
over the stripped lines of a file. -/
def parse_dependencies (lines : List Str) : List Str :=
  lines.foldl (fun acc l =>
    match sourceRegexMatch (pyStrip l) with
    | some d => setAdd d acc
    | none => acc) []

/-- `build_dependency_graph` over an enumerated corpus of
(path, contents) pairs, in the order `find_sh_files` yields them:
`graph[filename] = dependencies` and `file_paths[filename] = file_path`,
keyed by basename with plain dict assignment. -/
def build_dependency_graph (files : List (Str × List Str)) :
    List (Str × List Str) × List (Str × Str) :=
  files.foldl (fun acc f =>
    (dictInsert (basename f.1) (parse_dependencies f.2) acc.1,
     dictInsert (basename f.1) f.1 acc.2)) ([], [])

/-- Mutable state of Tarjan's algorithm in
`find_strongly_connected_components`: discovery counter, explicit stack,
`index`/`lowlinks`/`on_stack` dictionaries, and the output component list. -/
structure TjState where
  idxCounter : Nat
  stack : List Str
  indexM : List (Str × Nat)
  lowlinkM : List (Str × Nat)
  onStackM : List (Str × Bool)
  comps : List (List Str)
deriving Repr

/-- The initial Tarjan state. -/
def tjInit : TjState := ⟨0, [], [], [], [], []⟩

/-- The successor set `graph.get(node, set())`. -/
def depsOf (g : List (Str × List Str)) (node : Str) : List Str :=
  (lookupD node g).getD []

/-- The component pop loop at the root of an SCC: pop stack entries (top of
stack at the head) into the component until `node` itself is popped. -/
def popComponent (node : Str) : List Str → List Str × List Str
  | [] => ([], [])
  | w :: rest =>
    if w = node then ([w], rest)
    else
      let pr := popComponent node rest
      (w :: pr.1, pr.2)

/-- `strongconnect`, with explicit fuel standing in for Python's call stack
(the fuel `|graph| + 1` used below always suffices, as each nested call
discovers a new node).  The successor loop of the source iterates over the
node's dependency set threading the mutable state: skip dependencies that are
not graph nodes, recurse into unvisited ones (folding their lowlink back in),
and fold in the index of on-stack ones. -/
def strongconnect (g : List (Str × List Str)) : Nat → Str → TjState → TjState
  | 0, _, st => st
  | Nat.succ fuel1, node, st =>
    let i := st.idxCounter
    let st1 : TjState :=
      { st with
        indexM := dictInsert node i st.indexM
        lowlinkM := dictInsert node i st.lowlinkM
        idxCounter := i + 1
        stack := node :: st.stack
        onStackM := dictInsert node true st.onStackM }
    let st2 := (depsOf g node).foldl (fun s dep =>
      if (lookupD dep g).isNone then s
      else if (lookupD dep s.indexM).isNone then
        let r := strongconnect g fuel1 dep s
        { r with
          lowlinkM := dictInsert node
            (Nat.min ((lookupD node r.lowlinkM).getD 0)
              ((lookupD dep r.lowlinkM).getD 0)) r.lowlinkM }
      else if (lookupD dep s.onStackM).getD false then
        { s with
          lowlinkM := dictInsert node
            (Nat.min ((lookupD node s.lowlinkM).getD 0)
              ((lookupD dep s.indexM).getD 0)) s.lowlinkM }
      else s) st1
    if lookupD node st2.lowlinkM = lookupD node st2.indexM then
      let pr := popComponent node st2.stack
      { st2 with
        stack := pr.2
        onStackM := pr.1.foldl (fun m w => dictInsert w false m) st2.onStackM
        comps := st2.comps ++ [pr.1] }
    else st2

/-- `find_strongly_connected_components`: run `strongconnect` from every
not-yet-indexed node, in graph insertion order. -/
def find_strongly_connected_components (g : List (Str × List Str)) :
    List (List Str) :=
  let fuel := g.length + 1
  (g.foldl (fun st e =>
    if (lookupD e.1 st.indexM).isNone then strongconnect g fuel e.1 st else st)
    tjInit).comps

/-- The cycle filter in `main` (line 248): components with more than one
node. -/
def cyclesOf (g : List (Str × List Str)) : List (List Str) :=
  (find_strongly_connected_components g).filter (fun comp => decide (1 < comp.length))

/-- The display form `cycle + [cycle[0]]` built in `main` (line 256). -/
def cycleDisplay : List Str → List Str
  | [] => []
  | h :: t => (h :: t) ++ [h]

/-- Edge test for stating properties about reported paths. -/
def hasEdge (g : List (Str × List Str)) (a b : Str) : Bool :=
  (depsOf g a).contains b

/-- The exit status of `DependencyCycleCheck.main` (line 334):
`0 if len(cycles) == 0 else 1`, composed over graph construction. -/
def dependency_cycle_main_exit (files : List (Str × List Str)) : Nat :=
  let g := (build_dependency_graph files).1
  if (cyclesOf g).length = 0 then 0 else 1

/-! ## File-read failure behavior (for the error-handling claims)

A file's read result is embedded as `Except Unit (List Str)`: `.ok lines` when
the open/read succeeds, `.error ()` when it raises.  The two tools differ:
`DependencyCycleCheck.parse_dependencies` wraps its read in
`try/except Exception: pass`, while `VerifySourceCalls.parse_functions_in_file`
has no handler, so an exception propagates to its caller. -/

/-- `parse_dependencies` on a read result: the `except Exception: pass`
handler turns a failed read into an empty dependency set (silently — nothing
is logged). -/
def parse_dependencies_onread (r : Except Unit (List Str)) : List Str :=
  match r with
  | .ok lines => parse_dependencies lines
  | .error _ => []

/-- `build_dependency_graph` over read results: every enumerated file gets a
node even when its read fails. -/
def build_dependency_graph_onread (files : List (Str × Except Unit (List Str))) :
    List (Str × List Str) × List (Str × Str) :=
  files.foldl (fun acc f =>
    (dictInsert (basename f.1) (parse_dependencies_onread f.2) acc.1,
     dictInsert (basename f.1) f.1 acc.2)) ([], [])

/-- `parse_functions_in_file` on a read result: no exception handler, so a
failed read propagates. -/
def parse_functions_in_file_onread (r : Except Unit (List Str)) :
    Except Unit (List Str) :=
  match r with
  | .ok lines => .ok (parse_functions_in_file lines)
  | .error e => .error e

/-- The loop of `build_global_function_map` over read results: an exception
raised while parsing one utility file propagates out of the loop, aborting the
remaining files. -/
def buildGlobalMapLoop :
    List (Str × Except Unit (List Str)) → List (Str × List Str) →
      Except Unit (List (Str × List Str))
  | [], gm => .ok gm
  | u :: rest, gm =>
    match parse_functions_in_file_onread u.2 with
    | .error e => .error e
    | .ok funcs => buildGlobalMapLoop rest (addFuncsToGlobal u.1 funcs gm)

/-- `build_global_function_map` over read results. -/
def build_global_function_map_onread
    (utilities : List (Str × Except Unit (List Str))) :
    Except Unit (List (Str × List Str)) :=
  buildGlobalMapLoop utilities []

/-- The verdict one call receives in `analyze_script`'s loop, as an optional
`unknown_calls` entry (calls resolved locally or via includes produce none). -/
def classifyOne (local_funcs all_includes : List Str)
    (utilities : List (Str × List Str)) (global_map : List (Str × List Str))
    (call : Str) : Option (Str × Str) :=
  if call ∈ local_funcs then none
  else
    match all_includes.filter
        (fun inc => decide (call ∈ parse_utility_functions utilities inc)) with
    | [_] => none
    | [] =>
      match lookupD call global_map with
      | none => some (call, reasonUnknown)
      | some [only] => some (call, reasonNeeds only)
      | some possible => some (call, reasonMultiple possible)
    | _ => none

/-- The spec's Scenario A graph `\x7bA: \x7bB\x7d, B: \x7bC\x7d, C: \x7bA\x7d\x7d`. -/
def exGraphABC : List (Str × List Str) :=
  [(cs "A", [cs "B"]), (cs "B", [cs "C"]), (cs "C", [cs "A"])]

/-- Every consecutive pair of the sequence is an edge of the graph. -/
def isChain (g : List (Str × List Str)) : List Str → Bool
  | a :: b :: rest => hasEdge g a b && isChain g (b :: rest)
  | _ => true

/-! ## Lemmas about the fix synthesizer -/

lemma pyStrip_of_ends (c d : Char) (m : Str) (hc : pyIsSpace c = false)
    (hd : pyIsSpace d = false) : pyStrip (c :: m ++ [d]) = c :: m ++ [d] := by
  simp [pyStrip, pyLstrip, pyRstrip, List.dropWhile_cons, hc, hd]

lemma pyStrip_sourceLine (f : Str) : pyStrip (sourceLine f) = sourceLine f := by
  show pyStrip ('s' :: (cs "ource \"$\x7bUTILITYPATH\x7d/" ++ f) ++ ['\"']) = _
  rw [pyStrip_of_ends] <;> rfl

lemma pyStrip_dotLine (f : Str) : pyStrip (dotLine f) = dotLine f := by
  show pyStrip ('.' :: (cs " \"$\x7bUTILITYPATH\x7d/" ++ f) ++ ['\"']) = _
  rw [pyStrip_of_ends] <;> rfl

lemma sourceLine_inj {a b : Str} (h : sourceLine a = sourceLine b) : a = b := by
  unfold sourceLine at h
  have h1 := List.append_cancel_right h
  exact List.append_cancel_left h1

lemma sourceLine_ne_dotLine (a b : Str) : sourceLine a ≠ dotLine b := by
  intro h
  have : 's' = '.' := by
    have h2 : ('s' :: (cs "ource \"$\x7bUTILITYPATH\x7d/" ++ a ++ cs "\"")) =
        ('.' :: (cs " \"$\x7bUTILITYPATH\x7d/" ++ b ++ cs "\"")) := h
    exact (List.cons.injEq _ _ _ _ ▸ h2).1
  simp at this

lemma should_remove_sourceLine_eq_false {a : Str} {removeSources : List Str}
    (ha : a ∉ removeSources) :
    should_remove_source_line (sourceLine a) removeSources = false := by
  rw [should_remove_source_line, List.any_eq_false]
  intro r hr
  rw [pyStrip_sourceLine]
  simp only [Bool.or_eq_true, beq_iff_eq, not_or]
  constructor
  · intro h; exact ha (sourceLine_inj h ▸ hr)
  · exact sourceLine_ne_dotLine a r

lemma mem_insertSorted {x a : Str} {l : List Str} :
    x ∈ insertSorted a l ↔ x = a ∨ x ∈ l := by
  induction l with
  | nil => simp [insertSorted]
  | cons y ys ih =>
    by_cases h : strLe a y = true
    · simp [insertSorted, h]
    · simp only [insertSorted, if_neg h, List.mem_cons, ih]
      tauto

lemma mem_pySorted {x : Str} {l : List Str} : x ∈ pySorted l ↔ x ∈ l := by
  induction l with
  | nil => simp [pySorted]
  | cons y ys ih =>
    simp only [pySorted, List.foldr_cons] at ih ⊢
    rw [mem_insertSorted, ih, List.mem_cons]

lemma mem_linesToInsert {x : Str} {lines addSources : List Str}
    (h : x ∈ linesToInsert lines addSources) :
    ∃ a, a ∈ addSources ∧ x = sourceLine a ∧
      lines.any (fun l => pyStrip l == sourceLine a) = false := by
  unfold linesToInsert at h
  obtain ⟨a, ha, hx⟩ := List.mem_filterMap.mp h
  by_cases hc : (lines.any fun l => pyStrip l == pyStrip (sourceLine a)) = true
  · rw [if_pos hc] at hx; exact absurd hx (by simp)
  · rw [if_neg hc] at hx
    refine ⟨a, mem_pySorted.mp ha, (Option.some.inj hx).symm, ?_⟩
    rw [pyStrip_sourceLine] at hc
    exact Bool.eq_false_iff.mpr hc

lemma find_comment_block_end_le (lines : List Str) :
    find_comment_block_end lines ≤ lines.length := by
  induction lines with
  | nil => simp [find_comment_block_end]
  | cons l rest ih =>
    rw [find_comment_block_end]
    split
    · simp
    · simpa using Nat.succ_le_succ ih

lemma rebuildLines_of_lt (insertIdx : Nat) (toIns removeSources : List Str)
    (ls : List Str) (i : Nat) (h : insertIdx < i) :
    rebuildLines insertIdx toIns removeSources i ls =
      ls.filter (fun l => !should_remove_source_line l removeSources) := by
  induction ls generalizing i with
  | nil => rfl
  | cons l rest ih =>
    rw [rebuildLines]
    have hne : (i == insertIdx) = false := by simp; omega
    by_cases hr : should_remove_source_line l removeSources <;>
      simp [hne, hr, List.filter_cons, ih (i + 1) (by omega)]

lemma rebuildLines_of_ge (insertIdx : Nat) (toIns removeSources : List Str)
    (ls : List Str) (i : Nat) (h : i + ls.length ≤ insertIdx) :
    rebuildLines insertIdx toIns removeSources i ls =
      ls.filter (fun l => !should_remove_source_line l removeSources) := by
  induction ls generalizing i with
  | nil => rfl
  | cons l rest ih =>
    rw [rebuildLines]
    have hne : (i == insertIdx) = false := by simp at h ⊢; omega
    by_cases hr : should_remove_source_line l removeSources <;>
      simp [hne, hr, List.filter_cons, ih (i + 1) (by simp at h ⊢; omega)]

lemma rebuildLines_mid (insertIdx : Nat) (toIns removeSources : List Str)
    (ls : List Str) (i : Nat) (h1 : i ≤ insertIdx) (h2 : insertIdx < i + ls.length) :
    rebuildLines insertIdx toIns removeSources i ls =
      (ls.take (insertIdx - i)).filter (fun l => !should_remove_source_line l removeSources)
        ++ toIns
        ++ (ls.drop (insertIdx - i)).filter
            (fun l => !should_remove_source_line l removeSources) := by
  induction ls generalizing i with
  | nil => simp at h2; omega
  | cons l rest ih =>
    rcases Nat.eq_or_lt_of_le h1 with heq | hlt
    · subst heq
      rw [rebuildLines]
      have hrec := rebuildLines_of_lt i toIns removeSources rest (i + 1) (by omega)
      have hins : (if (i == i && !toIns.isEmpty) = true then toIns else []) = toIns := by
        cases toIns <;> simp
      by_cases hr : should_remove_source_line l removeSources <;>
        simp [hrec, hins, hr, List.filter_cons]
    · rw [rebuildLines]
      have hne : (i == insertIdx) = false := by simp; omega
      have hrec := ih (i + 1) hlt (by simp at h2 ⊢; omega)
      have hsub : insertIdx - i = (insertIdx - (i + 1)) + 1 := by omega
      rw [hsub]
      by_cases hr : should_remove_source_line l removeSources <;>
        simp [hne, hrec, hr, List.filter_cons]

/-- The frame decomposition of `fix_script`: the output is exactly the
non-removed prefix before the insertion point, then the synthesized include
block, then the non-removed remainder. -/
lemma fix_script_decomp (lines addSources removeSources : List Str) :
    fix_script lines addSources removeSources =
      ((lines.take (find_comment_block_end lines)).filter
          (fun l => !should_remove_source_line l removeSources))
        ++ linesToInsert lines addSources
        ++ ((lines.drop (find_comment_block_end lines)).filter
            (fun l => !should_remove_source_line l removeSources)) := by
  by_cases h0 : (addSources.isEmpty && removeSources.isEmpty) = true
  · rw [Bool.and_eq_true] at h0
    obtain ⟨ha, hr⟩ := h0
    rw [List.isEmpty_iff] at ha hr
    subst ha; subst hr
    simp [fix_script, linesToInsert, pySorted, should_remove_source_line]
  · have hle := find_comment_block_end_le lines
    simp only [fix_script, if_neg h0]
    by_cases hlen : find_comment_block_end lines = lines.length
    · have hbase := rebuildLines_of_ge (find_comment_block_end lines)
        (linesToInsert lines addSources) removeSources lines 0 (by omega)
      rw [hlen] at hbase ⊢
      rw [List.take_length, List.drop_length]
      by_cases hti : linesToInsert lines addSources = []
      · simp only [hti] at hbase ⊢
        simpa using hbase
      · have hne : (linesToInsert lines addSources).isEmpty = false := by
          simpa [List.isEmpty_iff] using hti
        simp [hne, hbase]
    · have hne : (find_comment_block_end lines == lines.length) = false := by
        simp [hlen]
      rw [hne]
      simp only [Bool.false_and, Bool.false_eq_true, if_false]
      have hmid := rebuildLines_mid (find_comment_block_end lines)
        (linesToInsert lines addSources) removeSources lines 0 (Nat.zero_le _)
        (by omega)
      simpa using hmid

lemma mem_fix_script {l : Str} {lines addSources removeSources : List Str}
    (h : l ∈ fix_script lines addSources removeSources) :
    l ∈ linesToInsert lines addSources ∨
      (l ∈ lines ∧ should_remove_source_line l removeSources = false) := by
  rw [fix_script_decomp] at h
  rcases List.mem_append.mp h with h1 | h2
  · rcases List.mem_append.mp h1 with hp | hi
    · right
      obtain ⟨hm, hk⟩ := List.mem_filter.mp hp
      exact ⟨List.mem_of_mem_take hm, by simpa using hk⟩
    · left; exact hi
  · right
    obtain ⟨hm, hk⟩ := List.mem_filter.mp h2
    exact ⟨List.mem_of_mem_drop hm, by simpa using hk⟩

lemma strip_eq_sourceLine_not_removable {l a : Str} {removeSources : List Str}
    (hstrip : pyStrip l = sourceLine a) (har : a ∉ removeSources) :
    should_remove_source_line l removeSources = false := by
  rw [should_remove_source_line, List.any_eq_false]
  intro r hr
  simp only [Bool.or_eq_true, beq_iff_eq, not_or, hstrip]
  refine ⟨fun hh => har ?_, sourceLine_ne_dotLine a r⟩
  rw [sourceLine_inj hh]; exact hr

lemma exists_strip_sourceLine_mem_fix {a : Str} (lines : List Str)
    {addSources removeSources : List Str}
    (ha : a ∈ addSources) (har : a ∉ removeSources) :
    ∃ l ∈ fix_script lines addSources removeSources, pyStrip l = sourceLine a := by
  by_cases hany : (lines.any fun l => pyStrip l == sourceLine a) = true
  · obtain ⟨l0, hl0, hstrip⟩ := List.any_eq_true.mp hany
    rw [beq_iff_eq] at hstrip
    refine ⟨l0, ?_, hstrip⟩
    rw [fix_script_decomp]
    have hkeep : (!should_remove_source_line l0 removeSources) = true := by
      simp [strip_eq_sourceLine_not_removable hstrip har]
    have hsplit : l0 ∈ lines.take (find_comment_block_end lines) ∨
        l0 ∈ lines.drop (find_comment_block_end lines) := by
      rw [← List.mem_append, List.take_append_drop]; exact hl0
    rcases hsplit with hm | hm
    · exact List.mem_append.mpr (Or.inl (List.mem_append.mpr
        (Or.inl (List.mem_filter.mpr ⟨hm, hkeep⟩))))
    · exact List.mem_append.mpr (Or.inr (List.mem_filter.mpr ⟨hm, hkeep⟩))
  · refine ⟨sourceLine a, ?_, pyStrip_sourceLine a⟩
    have hmem : sourceLine a ∈ linesToInsert lines addSources := by
      rw [linesToInsert]
      apply List.mem_filterMap.mpr
      refine ⟨a, mem_pySorted.mpr ha, ?_⟩
      rw [pyStrip_sourceLine, if_neg hany]
    rw [fix_script_decomp]
    exact List.mem_append.mpr (Or.inl (List.mem_append.mpr (Or.inr hmem)))

lemma fix_members_not_removable {lines addSources removeSources : List Str}
    (hdisj : ∀ a ∈ addSources, a ∉ removeSources) :
    ∀ l ∈ fix_script lines addSources removeSources,
      should_remove_source_line l removeSources = false := by
  intro l hl
  rcases mem_fix_script hl with hi | ⟨_, hk⟩
  · obtain ⟨a, ha, rfl, _⟩ := mem_linesToInsert hi
    exact should_remove_sourceLine_eq_false (hdisj a ha)
  · exact hk

lemma linesToInsert_fix_eq_nil {lines addSources removeSources : List Str}
    (hdisj : ∀ a ∈ addSources, a ∉ removeSources) :
    linesToInsert (fix_script lines addSources removeSources) addSources = [] := by
  rw [linesToInsert]
  apply List.filterMap_eq_nil_iff.mpr
  intro a ha
  rw [pyStrip_sourceLine]
  obtain ⟨l, hl, hstrip⟩ := exists_strip_sourceLine_mem_fix lines
    (mem_pySorted.mp ha) (hdisj _ (mem_pySorted.mp ha))
  have hany : ((fix_script lines addSources removeSources).any
      fun l => pyStrip l == sourceLine a) = true :=
    List.any_eq_true.mpr ⟨l, hl, beq_iff_eq.mpr hstrip⟩
  rw [if_pos hany]

lemma fix_script_eq_self {T addSources removeSources : List Str}
    (h1 : linesToInsert T addSources = [])
    (h2 : ∀ l ∈ T, should_remove_source_line l removeSources = false) :
    fix_script T addSources removeSources = T := by
  rw [fix_script_decomp, h1]
  have hfil : ∀ s : List Str, (∀ l ∈ s, l ∈ T) →
      s.filter (fun l => !should_remove_source_line l removeSources) = s := by
    intro s hs
    apply List.filter_eq_self.mpr
    intro l hl
    simp [h2 l (hs l hl)]
  rw [hfil _ (fun l hl => List.mem_of_mem_take hl),
    hfil _ (fun l hl => List.mem_of_mem_drop hl)]
  simp [List.take_append_drop]

/-! ## Further lemmas for the fix synthesizer claims -/

lemma dotLine_inj {a b : Str} (h : dotLine a = dotLine b) : a = b := by
  unfold dotLine at h
  have h1 := List.append_cancel_right h
  exact List.append_cancel_left h1

lemma strip_eq_dotLine_not_removable {l a : Str} {removeSources : List Str}
    (hstrip : pyStrip l = dotLine a) (har : a ∉ removeSources) :
    should_remove_source_line l removeSources = false := by
  rw [should_remove_source_line, List.any_eq_false]
  intro r hr
  simp only [Bool.or_eq_true, beq_iff_eq, not_or, hstrip]
  refine ⟨fun hh => sourceLine_ne_dotLine r a hh.symm, fun hh => har ?_⟩
  rw [dotLine_inj hh]; exact hr

lemma sourceLine_mem_linesToInsert {a : Str} {lines addSources : List Str}
    (ha : a ∈ addSources)
    (hany : (lines.any fun l => pyStrip l == sourceLine a) = false) :
    sourceLine a ∈ linesToInsert lines addSources := by
  rw [linesToInsert]
  apply List.mem_filterMap.mpr
  refine ⟨a, mem_pySorted.mpr ha, ?_⟩
  rw [pyStrip_sourceLine, if_neg (by simp [hany])]

/-! ## Claims C7, C8, C10 -/

/-- C8: `fix_script` keeps every input line that is not an exact include
statement (in either keyword form) for a file in `toRemove`, unchanged and in
its original relative order, and the only other difference from the input is
the block of new include lines inserted at the single insertion point (the
end of the leading comment block). -/
theorem C8_fix_synthesizer_frame (lines toAdd toRemove : List Str) :
    fix_script lines toAdd toRemove =
      ((lines.take (find_comment_block_end lines)).filter
          (fun l => !should_remove_source_line l toRemove))
        ++ linesToInsert lines toAdd
        ++ ((lines.drop (find_comment_block_end lines)).filter
            (fun l => !should_remove_source_line l toRemove)) :=
  fix_script_decomp lines toAdd toRemove

/-- C7 (counterexample): applying the same fix twice is not always a no-op —
with `X.sh` both in `toAdd` and `toRemove`, the first pass inserts the
`source` line and the second pass deletes it again. -/
theorem C7_counterexample :
    fix_script (fix_script [cs "# header", cs "echo hi"] [cs "X.sh"] [cs "X.sh"])
        [cs "X.sh"] [cs "X.sh"] ≠
      fix_script [cs "# header", cs "echo hi"] [cs "X.sh"] [cs "X.sh"] := by
  decide

/-- C7 (amended): fix application is idempotent whenever `toAdd` and
`toRemove` are disjoint (which holds for the add/remove sets `main` computes);
applying the same pair again to the result changes nothing. -/
theorem C7_fix_idempotent_of_disjoint (lines toAdd toRemove : List Str)
    (hdisj : ∀ a ∈ toAdd, a ∉ toRemove) :
    fix_script (fix_script lines toAdd toRemove) toAdd toRemove =
      fix_script lines toAdd toRemove :=
  fix_script_eq_self (linesToInsert_fix_eq_nil hdisj)
    (fix_members_not_removable hdisj)

/-- C7 (witness): the idempotence theorem applied at a concrete script with
disjoint add/remove sets. -/
theorem C7_fix_idempotent_witness :
    fix_script (fix_script [cs "# h", cs "run"] [cs "X.sh"] [cs "Y.sh"])
        [cs "X.sh"] [cs "Y.sh"] =
      fix_script [cs "# h", cs "run"] [cs "X.sh"] [cs "Y.sh"] :=
  C7_fix_idempotent_of_disjoint _ _ _ (by decide)

/-- C10: the duplicate-insertion guard of `fix_script` compares only against
the `source`-keyword canonical form, so a script whose include of `F` appears
only in the dot-alias form receives a second, `source`-form include line for
`F`. -/
theorem C10_dot_alias_not_deduplicated (lines toAdd toRemove : List Str)
    (F : Str) (hdot : ∃ l ∈ lines, pyStrip l = dotLine F)
    (hnosrc : ∀ l ∈ lines, pyStrip l ≠ sourceLine F)
    (hadd : F ∈ toAdd) (hrem : F ∉ toRemove) :
    sourceLine F ∈ fix_script lines toAdd toRemove ∧
      2 ≤ (fix_script lines toAdd toRemove).countP
        (fun l => pyStrip l == sourceLine F || pyStrip l == dotLine F) := by
  obtain ⟨l0, hl0, hstrip0⟩ := hdot
  have hany : (lines.any fun l => pyStrip l == sourceLine F) = false := by
    rw [List.any_eq_false]
    intro l hl
    simpa using hnosrc l hl
  have hins := sourceLine_mem_linesToInsert hadd hany
  have hkeep0 : (!should_remove_source_line l0 toRemove) = true := by
    simp [strip_eq_dotLine_not_removable hstrip0 hrem]
  constructor
  · rw [fix_script_decomp]
    exact List.mem_append.mpr (Or.inl (List.mem_append.mpr (Or.inr hins)))
  · rw [fix_script_decomp, List.countP_append, List.countP_append]
    have h1 : 0 < (linesToInsert lines toAdd).countP
        (fun l => pyStrip l == sourceLine F || pyStrip l == dotLine F) :=
      List.countP_pos_iff.mpr ⟨sourceLine F, hins, by simp [pyStrip_sourceLine]⟩
    have hsplit : l0 ∈ lines.take (find_comment_block_end lines) ∨
        l0 ∈ lines.drop (find_comment_block_end lines) := by
      rw [← List.mem_append, List.take_append_drop]; exact hl0
    have hpred : (fun l => pyStrip l == sourceLine F || pyStrip l == dotLine F) l0
        = true := by simp [hstrip0]
    rcases hsplit with hm | hm
    · have h2 : 0 < ((lines.take (find_comment_block_end lines)).filter
          (fun l => !should_remove_source_line l toRemove)).countP
          (fun l => pyStrip l == sourceLine F || pyStrip l == dotLine F) :=
        List.countP_pos_iff.mpr ⟨l0, List.mem_filter.mpr ⟨hm, hkeep0⟩, hpred⟩
      omega
    · have h2 : 0 < ((lines.drop (find_comment_block_end lines)).filter
          (fun l => !should_remove_source_line l toRemove)).countP
          (fun l => pyStrip l == sourceLine F || pyStrip l == dotLine F) :=
        List.countP_pos_iff.mpr ⟨l0, List.mem_filter.mpr ⟨hm, hkeep0⟩, hpred⟩
      omega

/-- C10 (witness): a script including `X.sh` only via the dot alias ends up
with both forms after a fix that adds `X.sh`. -/
theorem C10_dot_alias_witness :
    sourceLine (cs "X.sh") ∈
        fix_script [cs "# h", cs ". \"$\x7bUTILITYPATH\x7d/X.sh\"", cs "run"]
          [cs "X.sh"] [] ∧
      2 ≤ (fix_script [cs "# h", cs ". \"$\x7bUTILITYPATH\x7d/X.sh\"", cs "run"]
          [cs "X.sh"] []).countP
        (fun l => pyStrip l == sourceLine (cs "X.sh") ||
          pyStrip l == dotLine (cs "X.sh")) :=
  C10_dot_alias_not_deduplicated _ _ _ _ (by decide) (by decide) (by decide)
    (by decide)

/-! ## Membership lemmas for the extractor folds -/

lemma mem_setAdd {α : Type} [DecidableEq α] {x a : α} {s : List α} :
    x ∈ setAdd a s ↔ x = a ∨ x ∈ s := by
  unfold setAdd
  by_cases h : a ∈ s
  · simp only [if_pos h]
    constructor
    · exact Or.inr
    · rintro (rfl | hx)
      · exact h
      · exact hx
  · simp [if_neg h, or_comm]

lemma mem_tokenFold {acc : List Str} {ts : List Str} {t : Str} :
    t ∈ ts.foldl (fun acc2 t2 =>
        if callRegexMatch t2 then
          if t2 = baseToken then acc2 else setAdd t2 acc2
        else acc2) acc ↔
      t ∈ acc ∨ (t ∈ ts ∧ callRegexMatch t = true ∧ t ≠ baseToken) := by
  induction ts generalizing acc with
  | nil => simp
  | cons t2 rest ih =>
    rw [List.foldl_cons, ih]
    by_cases hm : callRegexMatch t2 = true
    · by_cases hb : t2 = baseToken
      · subst hb
        simp only [hm, if_true, if_pos rfl, List.mem_cons]
        constructor
        · rintro (h | ⟨h1, h2, h3⟩)
          · exact Or.inl h
          · exact Or.inr ⟨Or.inr h1, h2, h3⟩
        · rintro (h | ⟨(rfl | h1), h2, h3⟩)
          · exact Or.inl h
          · exact absurd rfl h3
          · exact Or.inr ⟨h1, h2, h3⟩
      · simp only [hm, if_true, if_neg hb, mem_setAdd, List.mem_cons]
        constructor
        · rintro ((rfl | h) | ⟨h1, h2, h3⟩)
          · exact Or.inr ⟨Or.inl rfl, hm, hb⟩
          · exact Or.inl h
          · exact Or.inr ⟨Or.inr h1, h2, h3⟩
        · rintro (h | ⟨(rfl | h1), h2, h3⟩)
          · exact Or.inl (Or.inr h)
          · exact Or.inl (Or.inl rfl)
          · exact Or.inr ⟨h1, h2, h3⟩
    · simp only [Bool.not_eq_true] at hm
      simp only [hm, Bool.false_eq_true, if_false, List.mem_cons]
      constructor
      · rintro (h | ⟨h1, h2, h3⟩)
        · exact Or.inl h
        · exact Or.inr ⟨Or.inr h1, h2, h3⟩
      · rintro (h | ⟨(rfl | h1), h2, h3⟩)
        · exact Or.inl h
        · rw [hm] at h2; exact absurd h2 (by simp)
        · exact Or.inr ⟨h1, h2, h3⟩

lemma mem_gather_function_calls {lines : List Str} {t : Str} :
    t ∈ gather_function_calls lines ↔
      ∃ l ∈ lines, (funcDefSearch (pyStrip l)).isNone = true ∧
        t ∈ pySplit (pyStrip l) ∧ callRegexMatch t = true ∧ t ≠ baseToken := by
  have haux : ∀ (ls : List Str) (acc : List Str),
      t ∈ ls.foldl (fun acc l =>
        if (funcDefSearch (pyStrip l)).isSome then acc
        else
          (pySplit (pyStrip l)).foldl (fun acc2 t2 =>
            if callRegexMatch t2 then
              if t2 = baseToken then acc2 else setAdd t2 acc2
            else acc2) acc) acc ↔
      t ∈ acc ∨ ∃ l ∈ ls, (funcDefSearch (pyStrip l)).isNone = true ∧
        t ∈ pySplit (pyStrip l) ∧ callRegexMatch t = true ∧ t ≠ baseToken := by
    intro ls
    induction ls with
    | nil => simp
    | cons l rest ih =>
      intro acc
      rw [List.foldl_cons, ih]
      rcases hf : funcDefSearch (pyStrip l) with _ | n
      case cons.some =>
        simp only [hf, Option.isSome_some, if_true, List.mem_cons]
        constructor
        · rintro (h | ⟨l2, h1, h2⟩)
          · exact Or.inl h
          · exact Or.inr ⟨l2, Or.inr h1, h2⟩
        · rintro (h | ⟨l2, (rfl | h1), h2⟩)
          · exact Or.inl h
          · rw [hf] at h2; exact absurd h2.1 (by simp)
          · exact Or.inr ⟨l2, h1, h2⟩
      case cons.none =>
        have hd2 : (funcDefSearch (pyStrip l)).isNone = true := by rw [hf]; rfl
        simp only [hf, Option.isSome_none, Bool.false_eq_true, if_false,
          mem_tokenFold, List.mem_cons]
        constructor
        · rintro ((h | ⟨h1, h2, h3⟩) | ⟨l2, h1, h2⟩)
          · exact Or.inl h
          · exact Or.inr ⟨l, Or.inl rfl, hd2, h1, h2, h3⟩
          · exact Or.inr ⟨l2, Or.inr h1, h2⟩
        · rintro (h | ⟨l2, (rfl | h1), h2⟩)
          · exact Or.inl (Or.inl h)
          · exact Or.inl (Or.inr ⟨h2.2.1, h2.2.2⟩)
          · exact Or.inr ⟨l2, h1, h2⟩
  rw [gather_function_calls, haux]
  simp

lemma mem_parse_functions_in_file {lines : List Str} {w : Str} :
    w ∈ parse_functions_in_file lines ↔
      ∃ l ∈ lines, funcDefSearch (pyRstrip l) = some w := by
  have haux : ∀ (ls : List Str) (acc : List Str),
      w ∈ ls.foldl (fun acc l =>
        match funcDefSearch (pyRstrip l) with
        | some n => setAdd n acc
        | none => acc) acc ↔
      w ∈ acc ∨ ∃ l ∈ ls, funcDefSearch (pyRstrip l) = some w := by
    intro ls
    induction ls with
    | nil => simp
    | cons l rest ih =>
      intro acc
      rw [List.foldl_cons, ih]
      rcases hf : funcDefSearch (pyRstrip l) with _ | n
      · simp only [hf, List.mem_cons]
        constructor
        · rintro (h | ⟨l2, h1, h2⟩)
          · exact Or.inl h
          · exact Or.inr ⟨l2, Or.inr h1, h2⟩
        · rintro (h | ⟨l2, (rfl | h1), h2⟩)
          · exact Or.inl h
          · rw [hf] at h2; exact absurd h2 (by simp)
          · exact Or.inr ⟨l2, h1, h2⟩
      · simp only [hf, mem_setAdd, List.mem_cons]
        constructor
        · rintro ((rfl | h) | ⟨l2, h1, h2⟩)
          · exact Or.inr ⟨l, Or.inl rfl, hf⟩
          · exact Or.inl h
          · exact Or.inr ⟨l2, Or.inr h1, h2⟩
        · rintro (h | ⟨l2, (rfl | h1), h2⟩)
          · exact Or.inl (Or.inr h)
          · rw [hf] at h2; exact Or.inl (Or.inl (Option.some.inj h2).symm)
          · exact Or.inr ⟨l2, h1, h2⟩
  rw [parse_functions_in_file, haux]
  simp

/-! ## Claims C4, C5 -/

/-- C4 (counterexample): a dunder token on a full-line comment IS collected,
and a dunder token directly adjacent to shell metacharacters is NOT collected
— the opposite of the claimed behavior on both counts. -/
theorem C4_counterexample :
    gather_function_calls [cs "# __foo__ in a comment", cs "(__bar__)"]
        = [cs "__foo__"] ∧
      cs "__bar__" ∉ gather_function_calls
        [cs "# __foo__ in a comment", cs "(__bar__)"] := by
  constructor
  · decide
  · decide

/-- C4 (amended): call tokens are collected from every line that is not a
function-definition line — full-line comments included — by splitting the
stripped line on whitespace only (no metacharacter stripping), keeping the
tokens that in their entirety match the dunder call pattern, minus the
reserved `__base__`; hence a token adjacent to a metacharacter is not
collected and a token on a comment line is. -/
theorem C4_call_token_collection (lines : List Str) (t : Str) :
    t ∈ gather_function_calls lines ↔
      ∃ l ∈ lines, (funcDefSearch (pyStrip l)).isNone = true ∧
        t ∈ pySplit (pyStrip l) ∧ callRegexMatch t = true ∧ t ≠ baseToken :=
  mem_gather_function_calls

/-- C4 (witness): the collection characterization applied to a concrete
comment line. -/
theorem C4_call_token_witness :
    cs "__foo__" ∈ gather_function_calls [cs "# note __foo__ here"] :=
  (C4_call_token_collection [cs "# note __foo__ here"] (cs "__foo__")).mpr
    ⟨cs "# note __foo__ here", by decide, by decide, by decide, by decide,
      by decide⟩

/-! ## Characterization of the definition-line regex (for C5) -/

lemma takeWhile_append_cons {p : Char → Bool} (l1 : Str) (c : Char) (t : Str)
    (h1 : ∀ x ∈ l1, p x = true) (hc : p c = false) :
    (l1 ++ c :: t).takeWhile p = l1 := by
  induction l1 with
  | nil => simp [List.takeWhile_cons, hc]
  | cons x xs ih =>
    rw [List.cons_append, List.takeWhile_cons, h1 x (by simp)]
    simp [ih (fun y hy => h1 y (by simp [hy]))]

lemma matchDunderDef_some {l w : Str} (h : matchDunderDef l = some w) :
    w = l.takeWhile isWordChar ∧ 5 ≤ w.length ∧
      w.take 2 = cs "__" ∧ w.reverse.take 2 = cs "__" ∧
      w.all isWordChar = true := by
  simp only [matchDunderDef] at h
  split at h
  case isFalse => exact absurd h (by simp)
  case isTrue hcond =>
    simp only [Bool.and_eq_true, decide_eq_true_eq, beq_iff_eq] at hcond
    obtain ⟨⟨hlen, htake⟩, hrev⟩ := hcond
    split at h <;> try simp at h
    split at h <;> try simp at h
    subst h
    refine ⟨rfl, hlen, htake, hrev, ?_⟩
    rw [List.all_eq_true]
    intro x hx
    exact List.mem_takeWhile_imp hx

lemma funcDefSearch_some {l w : Str} (h : funcDefSearch l = some w) :
    ∃ l2, matchDunderDef l2 = some w := by
  rw [funcDefSearch] at h
  split at h
  · split at h
    · split at h
      · exact ⟨_, h⟩
      · exact absurd h (by simp)
    · exact absurd h (by simp)
  · exact ⟨l, h⟩

lemma funcDefSearch_dunder_shape (inner : Str) (hne : inner ≠ [])
    (hw : inner.all isWordChar = true) :
    funcDefSearch (('_' :: '_' :: inner) ++ cs "__() \x7b") =
      some (('_' :: '_' :: inner) ++ cs "__") := by
  have hml : matchLit (cs "function") (('_' :: '_' :: inner) ++ cs "__() \x7b")
      = none := rfl
  rw [funcDefSearch, hml]
  have hsplit : ('_' :: '_' :: inner) ++ cs "__() \x7b" =
      (('_' :: '_' :: inner) ++ cs "__") ++ cs "() \x7b" := by
    rw [List.append_assoc]; rfl
  have hall : ∀ x ∈ ('_' :: '_' :: inner) ++ cs "__", isWordChar x = true := by
    intro x hx
    have hx2 : x ∈ ('_' :: '_' :: inner) ++ ['_', '_'] := hx
    simp only [List.cons_append, List.mem_cons, List.mem_append,
      List.mem_singleton, List.not_mem_nil, or_false] at hx2
    rcases hx2 with rfl | rfl | hx2 | rfl | rfl
    · decide
    · decide
    · exact List.all_eq_true.mp hw x hx2
    · decide
    · decide
  have htw : (('_' :: '_' :: inner) ++ cs "__() \x7b").takeWhile isWordChar =
      ('_' :: '_' :: inner) ++ cs "__" := by
    rw [hsplit]
    exact takeWhile_append_cons _ '(' _ hall (by decide)
  have hdrop : (('_' :: '_' :: inner) ++ cs "__() \x7b").drop
      (('_' :: '_' :: inner) ++ cs "__").length = cs "() \x7b" := by
    rw [hsplit]
    exact List.drop_left _ _
  rw [matchDunderDef, htw, hdrop]
  have hlen : 5 ≤ (('_' :: '_' :: inner) ++ cs "__").length := by
    have h1 : 1 ≤ inner.length := List.length_pos.mpr hne
    have h2 : (cs "__").length = 2 := rfl
    simp only [List.cons_append, List.length_cons, List.length_append]
    omega
  have hrev : (('_' :: '_' :: inner) ++ cs "__").reverse.take 2 = cs "__" := by
    rw [List.reverse_append]
    rfl
  have hcond : (decide (5 ≤ (('_' :: '_' :: inner) ++ cs "__").length)
      && ((('_' :: '_' :: inner) ++ cs "__").take 2 == cs "__")
      && ((('_' :: '_' :: inner) ++ cs "__").reverse.take 2 == cs "__")) = true := by
    simp only [Bool.and_eq_true, beq_iff_eq, decide_eq_true_eq]
    exact ⟨⟨hlen, rfl⟩, hrev⟩
  rw [if_pos hcond]
  rfl

/-! ## Claim C5 -/

/-- C5 (counterexample): a plain-identifier definition line `foo() {` is NOT
recognized (the regex only accepts double-underscore-wrapped names), and even
a dunder definition is not recognized when preceded by whitespace (the regex
is applied to the right-stripped line, anchored at its start). -/
theorem C5_counterexample :
    parse_functions_in_file [cs "foo() \x7b"] = [] ∧
      parse_functions_in_file [cs "  __f__() \x7b"] = [] := by
  constructor
  · decide
  · decide

/-- C5 (amended): a definition line must use a double-underscore-wrapped name
`__NAME__`; plain identifiers are never recognized (every recognized name
starts and ends with `__`, has length at least 5 and consists of word
characters only), a line `__NAME__() \x7b` anchored at the (right-stripped)
line start is recognized, and each recognized name is added to the file's
defined-function set. -/
theorem C5_definition_recognition :
    (∀ l w, funcDefSearch l = some w →
        w.take 2 = cs "__" ∧ w.reverse.take 2 = cs "__" ∧ 5 ≤ w.length ∧
          w.all isWordChar = true) ∧
    (∀ inner, inner ≠ [] → inner.all isWordChar = true →
        funcDefSearch (('_' :: '_' :: inner) ++ cs "__() \x7b") =
          some (('_' :: '_' :: inner) ++ cs "__")) ∧
    (∀ lines l w, l ∈ lines → funcDefSearch (pyRstrip l) = some w →
        w ∈ parse_functions_in_file lines) := by
  refine ⟨?_, funcDefSearch_dunder_shape, ?_⟩
  · intro l w h
    obtain ⟨l2, h2⟩ := funcDefSearch_some h
    obtain ⟨_, hlen, htake, hrev, hword⟩ := matchDunderDef_some h2
    exact ⟨htake, hrev, hlen, hword⟩
  · intro lines l w hl hw
    exact mem_parse_functions_in_file.mpr ⟨l, hl, hw⟩

/-- C5 (witness): the recognition theorem applied to the concrete line
`__myFn__() \x7b`. -/
theorem C5_definition_witness :
    funcDefSearch (('_' :: '_' :: cs "myFn") ++ cs "__() \x7b") =
      some (('_' :: '_' :: cs "myFn") ++ cs "__") :=
  C5_definition_recognition.2.1 (cs "myFn") (by decide) (by decide)

/-! ## Characterization of the resolver loop (for C3) -/

lemma classifyStep_fst (local_funcs all_includes : List Str)
    (utilities : List (Str × List Str)) (global_map : List (Str × List Str))
    (acc : List (Str × Str) × List Str) (call : Str) :
    (classifyStep local_funcs all_includes utilities global_map acc call).1 =
      acc.1 ++ (classifyOne local_funcs all_includes utilities global_map
        call).toList := by
  rw [classifyStep, classifyOne]
  by_cases hl : call ∈ local_funcs
  · simp [hl]
  · rw [if_neg hl, if_neg hl]
    rcases hfil : all_includes.filter
        (fun inc => decide (call ∈ parse_utility_functions utilities inc))
      with _ | ⟨i1, _ | ⟨i2, irest⟩⟩
    · rcases hlk : lookupD call global_map with _ | possible
      · simp
      · rcases possible with _ | ⟨f1, _ | ⟨f2, frest⟩⟩ <;> simp
    · simp
    · simp

lemma classifyOne_fst {local_funcs all_includes : List Str}
    {utilities : List (Str × List Str)} {global_map : List (Str × List Str)}
    {call : Str} {e : Str × Str}
    (h : classifyOne local_funcs all_includes utilities global_map call
      = some e) : e.1 = call := by
  rw [classifyOne] at h
  split at h
  · exact absurd h (by simp)
  · split at h
    · exact absurd h (by simp)
    · split at h
      · exact (congrArg Prod.fst (Option.some.inj h)).symm
      · exact (congrArg Prod.fst (Option.some.inj h)).symm
      · exact (congrArg Prod.fst (Option.some.inj h)).symm
    · exact absurd h (by simp)

lemma analyze_unknown_calls (scriptLines : List Str)
    (utilities : List (Str × List Str)) (global_map : List (Str × List Str)) :
    (analyze_script scriptLines utilities global_map).unknown_calls =
      (gather_function_calls scriptLines).filterMap
        (classifyOne (parse_script_for_includes_and_local_funcs scriptLines).2
          (parse_script_for_includes_and_local_funcs scriptLines).1
          utilities global_map) := by
  rw [analyze_script]
  have haux : ∀ (calls : List Str) (acc : List (Str × Str) × List Str),
      (calls.foldl (classifyStep
        (parse_script_for_includes_and_local_funcs scriptLines).2
        (parse_script_for_includes_and_local_funcs scriptLines).1
        utilities global_map) acc).1 =
      acc.1 ++ calls.filterMap (classifyOne
        (parse_script_for_includes_and_local_funcs scriptLines).2
        (parse_script_for_includes_and_local_funcs scriptLines).1
        utilities global_map) := by
    intro calls
    induction calls with
    | nil => simp
    | cons c rest ih =>
      intro acc
      rw [List.foldl_cons, ih, classifyStep_fst, List.filterMap_cons]
      rcases classifyOne
          (parse_script_for_includes_and_local_funcs scriptLines).2
          (parse_script_for_includes_and_local_funcs scriptLines).1
          utilities global_map c with _ | e
      · simp
      · simp
  rw [haux]
  simp

lemma filterMap_classify_not_mem {local_funcs all_includes : List Str}
    {utilities : List (Str × List Str)} {global_map : List (Str × List Str)}
    {call : Str} {calls : List Str} (h : call ∉ calls) :
    ((calls.filterMap (classifyOne local_funcs all_includes utilities
      global_map)).filter (fun e => decide (e.1 = call))) = [] := by
  induction calls with
  | nil => simp
  | cons c rest ih =>
    have hc : c ≠ call := fun hh => h (hh ▸ List.mem_cons_self c rest)
    rw [List.filterMap_cons]
    rcases he : classifyOne local_funcs all_includes utilities global_map c
      with _ | e
    · exact ih (fun hh => h (List.mem_cons_of_mem c hh))
    · rw [List.filter_cons]
      have : (decide (e.1 = call)) = false := by
        simp [classifyOne_fst he, hc]
      rw [this]
      simp only [Bool.false_eq_true, if_false]
      exact ih (fun hh => h (List.mem_cons_of_mem c hh))

lemma filterMap_classify_filter (local_funcs all_includes : List Str)
    (utilities : List (Str × List Str)) (global_map : List (Str × List Str))
    {call : Str} {calls : List Str} (hnd : calls.Nodup) (hmem : call ∈ calls) :
    ((calls.filterMap (classifyOne local_funcs all_includes utilities
      global_map)).filter (fun e => decide (e.1 = call))) =
      (classifyOne local_funcs all_includes utilities global_map call).toList := by
  induction calls with
  | nil => exact absurd hmem (by simp)
  | cons c rest ih =>
    rw [List.filterMap_cons]
    rcases List.mem_cons.mp hmem with rfl | hrest
    · have hnot : call ∉ rest := (List.nodup_cons.mp hnd).1
      rcases he : classifyOne local_funcs all_includes utilities global_map call
        with _ | e
      · rw [filterMap_classify_not_mem hnot]
        rfl
      · rw [List.filter_cons]
        have : (decide (e.1 = call)) = true := by simp [classifyOne_fst he]
        rw [this]
        simp only [if_true]
        rw [filterMap_classify_not_mem hnot]
        rfl
    · have hc : c ≠ call := fun hh =>
        (List.nodup_cons.mp hnd).1 (hh ▸ hrest)
      have ihr := ih (List.nodup_cons.mp hnd).2 hrest
      rcases he : classifyOne local_funcs all_includes utilities global_map c
        with _ | e
      · exact ihr
      · rw [List.filter_cons]
        have : (decide (e.1 = call)) = false := by
          simp [classifyOne_fst he, hc]
        rw [this]
        simp only [Bool.false_eq_true, if_false]
        exact ihr

lemma setAdd_nodup {α : Type} [DecidableEq α] {x : α} {s : List α}
    (h : s.Nodup) : (setAdd x s).Nodup := by
  unfold setAdd
  by_cases hm : x ∈ s
  · rwa [if_pos hm]
  · rw [if_neg hm, List.nodup_append]
    exact ⟨h, List.nodup_singleton x, by simpa [List.disjoint_singleton] using hm⟩

lemma gather_function_calls_nodup (lines : List Str) :
    (gather_function_calls lines).Nodup := by
  have htok : ∀ (ts : List Str) (acc : List Str), acc.Nodup →
      (ts.foldl (fun acc2 t2 =>
        if callRegexMatch t2 then
          if t2 = baseToken then acc2 else setAdd t2 acc2
        else acc2) acc).Nodup := by
    intro ts
    induction ts with
    | nil => intro acc h; exact h
    | cons t2 rest ih =>
      intro acc h
      rw [List.foldl_cons]
      apply ih
      by_cases hm : callRegexMatch t2 = true
      · by_cases hb : t2 = baseToken
        · simpa [hm, hb] using h
        · simpa [hm, hb] using setAdd_nodup h
      · simpa [hm] using h
  have haux : ∀ (ls : List Str) (acc : List Str), acc.Nodup →
      (ls.foldl (fun acc l =>
        if (funcDefSearch (pyStrip l)).isSome then acc
        else
          (pySplit (pyStrip l)).foldl (fun acc2 t2 =>
            if callRegexMatch t2 then
              if t2 = baseToken then acc2 else setAdd t2 acc2
            else acc2) acc) acc).Nodup := by
    intro ls
    induction ls with
    | nil => intro acc h; exact h
    | cons l rest ih =>
      intro acc h
      rw [List.foldl_cons]
      apply ih
      by_cases hd : (funcDefSearch (pyStrip l)).isSome = true
      · simpa [hd] using h
      · have hd2 : (funcDefSearch (pyStrip l)).isSome = false := by
          simpa using hd
        rw [hd2]
        simpa using htok _ acc h
  exact haux lines [] (List.nodup_nil)

/-! ## Lemmas about the split in `main` -/

lemma mainSplit_snd (u : List (Str × Str)) :
    (mainSplit u).2 = u.filter (fun e => !needsMarker.isPrefixOf e.2) := by
  have haux : ∀ (l : List (Str × Str)) (acc : List Str × List (Str × Str)),
      (l.foldl (fun acc e =>
        if needsMarker.isPrefixOf e.2 then
          (setAdd ((e.2.drop needsMarker.length).dropLast) acc.1, acc.2)
        else (acc.1, acc.2 ++ [e])) acc).2 =
      acc.2 ++ l.filter (fun e => !needsMarker.isPrefixOf e.2) := by
    intro l
    induction l with
    | nil => intro acc; simp
    | cons e rest ih =>
      intro acc
      rw [List.foldl_cons, ih, List.filter_cons]
      by_cases hp : needsMarker.isPrefixOf e.2 = true <;> simp [hp]
  rw [mainSplit, haux]
  simp

lemma mainSplit_fst_mono (u : List (Str × Str)) :
    ∀ (acc : List Str × List (Str × Str)) (x : Str), x ∈ acc.1 →
      x ∈ (u.foldl (fun acc e =>
        if needsMarker.isPrefixOf e.2 then
          (setAdd ((e.2.drop needsMarker.length).dropLast) acc.1, acc.2)
        else (acc.1, acc.2 ++ [e])) acc).1 := by
  induction u with
  | nil => intro acc x h; exact h
  | cons e rest ih =>
    intro acc x h
    rw [List.foldl_cons]
    apply ih
    by_cases hp : needsMarker.isPrefixOf e.2 = true
    · simpa [hp] using mem_setAdd.mpr (Or.inr h)
    · simpa [hp] using h

lemma mainSplit_fst_mem {u : List (Str × Str)} {c r : Str}
    (h : (c, r) ∈ u) (hp : needsMarker.isPrefixOf r = true) :
    (r.drop needsMarker.length).dropLast ∈ (mainSplit u).1 := by
  have haux : ∀ (l : List (Str × Str)) (acc : List Str × List (Str × Str)),
      (c, r) ∈ l →
      (r.drop needsMarker.length).dropLast ∈ (l.foldl (fun acc e =>
        if needsMarker.isPrefixOf e.2 then
          (setAdd ((e.2.drop needsMarker.length).dropLast) acc.1, acc.2)
        else (acc.1, acc.2 ++ [e])) acc).1 := by
    intro l
    induction l with
    | nil => intro acc hh; exact absurd hh (by simp)
    | cons e rest ih =>
      intro acc hh
      rw [List.foldl_cons]
      rcases List.mem_cons.mp hh with heq | hrest
      · obtain rfl : e = (c, r) := heq.symm
        simp only [hp, if_true]
        exact mainSplit_fst_mono rest _ _ (mem_setAdd.mpr (Or.inl rfl))
      · exact ih _ hrest
  rw [mainSplit]
  exact haux u ([], []) h

/-! ## Lemmas about the reason strings -/

lemma reasonNeeds_eq (f : Str) :
    reasonNeeds f = needsMarker ++ (f ++ cs "\"") := by
  rw [reasonNeeds, needsMarker, List.append_assoc]

lemma needsMarker_isPrefixOf_reasonNeeds (f : Str) :
    needsMarker.isPrefixOf (reasonNeeds f) = true := by
  rw [reasonNeeds_eq, List.isPrefixOf_iff_prefix]
  exact List.prefix_append _ _

lemma extract_reasonNeeds (f : Str) :
    ((reasonNeeds f).drop needsMarker.length).dropLast = f := by
  rw [reasonNeeds_eq, List.drop_left]
  have : cs "\"" = ['\"'] := rfl
  rw [this, List.dropLast_concat]

lemma needsMarker_not_prefix_reasonMultiple (files : List Str) :
    needsMarker.isPrefixOf (reasonMultiple files) = false := rfl

lemma needsMarker_not_prefix_reasonUnknown :
    needsMarker.isPrefixOf reasonUnknown = false := rfl

/-! ## Claim C3 -/

/-- C3: for a call token that is neither defined locally nor defined by any of
the script's includes: when exactly one utility file in the global index
defines it, the resolver classifies it needs-include naming that one file
(never unknown) and `main` extracts that file into the missing-includes set;
when two or more utility files define it, the resolver classifies it
ambiguous-global listing the candidates, the entry stays in the truly-unknown
list, and its reason does not carry the needs-source prefix, so no fix is
proposed and no candidate is selected. -/
theorem C3_global_resolution (scriptLines : List Str)
    (utilities : List (Str × List Str)) (call : Str)
    (hcall : call ∈ gather_function_calls scriptLines)
    (hlocal : call ∉ (parse_script_for_includes_and_local_funcs scriptLines).2)
    (hnoinc : (parse_script_for_includes_and_local_funcs scriptLines).1.filter
        (fun inc => decide (call ∈ parse_utility_functions utilities inc)) = []) :
    (∀ f, lookupD call (build_global_function_map utilities) = some [f] →
      ((analyze_script scriptLines utilities
          (build_global_function_map utilities)).unknown_calls.filter
        (fun e => decide (e.1 = call))) = [(call, reasonNeeds f)] ∧
      f ∈ (mainSplit (analyze_script scriptLines utilities
          (build_global_function_map utilities)).unknown_calls).1) ∧
    (∀ files, lookupD call (build_global_function_map utilities) = some files →
      2 ≤ files.length →
      ((analyze_script scriptLines utilities
          (build_global_function_map utilities)).unknown_calls.filter
        (fun e => decide (e.1 = call))) = [(call, reasonMultiple files)] ∧
      (call, reasonMultiple files) ∈ (mainSplit (analyze_script scriptLines
          utilities (build_global_function_map utilities)).unknown_calls).2 ∧
      needsMarker.isPrefixOf (reasonMultiple files) = false) := by
  have hfilter := filterMap_classify_filter
    (parse_script_for_includes_and_local_funcs scriptLines).2
    (parse_script_for_includes_and_local_funcs scriptLines).1
    utilities (build_global_function_map utilities)
    (gather_function_calls_nodup scriptLines) hcall
  rw [analyze_unknown_calls]
  constructor
  · intro f hf
    have hone : classifyOne
        (parse_script_for_includes_and_local_funcs scriptLines).2
        (parse_script_for_includes_and_local_funcs scriptLines).1
        utilities (build_global_function_map utilities) call
        = some (call, reasonNeeds f) := by
      rw [classifyOne, if_neg hlocal, hnoinc, hf]
    constructor
    · rw [hfilter, hone]
      rfl
    · have hmem2 : (call, reasonNeeds f) ∈
          (gather_function_calls scriptLines).filterMap (classifyOne
            (parse_script_for_includes_and_local_funcs scriptLines).2
            (parse_script_for_includes_and_local_funcs scriptLines).1
            utilities (build_global_function_map utilities)) := by
        exact List.mem_filterMap.mpr ⟨call, hcall, hone⟩
      have h3 := mainSplit_fst_mem hmem2 (needsMarker_isPrefixOf_reasonNeeds f)
      rwa [extract_reasonNeeds] at h3
  · intro files hf hlen
    rcases files with _ | ⟨f1, _ | ⟨f2, frest⟩⟩
    · simp at hlen
    · simp at hlen
    · have hone : classifyOne
          (parse_script_for_includes_and_local_funcs scriptLines).2
          (parse_script_for_includes_and_local_funcs scriptLines).1
          utilities (build_global_function_map utilities) call
          = some (call, reasonMultiple (f1 :: f2 :: frest)) := by
        rw [classifyOne, if_neg hlocal, hnoinc, hf]
      refine ⟨?_, ?_, needsMarker_not_prefix_reasonMultiple _⟩
      · rw [hfilter, hone]
        rfl
      · have hmem2 : (call, reasonMultiple (f1 :: f2 :: frest)) ∈
            (gather_function_calls scriptLines).filterMap (classifyOne
              (parse_script_for_includes_and_local_funcs scriptLines).2
              (parse_script_for_includes_and_local_funcs scriptLines).1
              utilities (build_global_function_map utilities)) := by
          exact List.mem_filterMap.mpr ⟨call, hcall, hone⟩
        rw [mainSplit_snd]
        apply List.mem_filter.mpr
        exact ⟨hmem2, by rw [needsMarker_not_prefix_reasonMultiple]; rfl⟩

/-- C3 (witness): a script calling `__bar__` with no includes, where only
`Z.sh` defines `__bar__`, gets the needs-include verdict and `Z.sh` lands in
the missing-includes set. -/
theorem C3_global_resolution_witness :
    ((analyze_script [cs "__bar__ arg"] [(cs "Z.sh", [cs "__bar__() \x7b"])]
        (build_global_function_map
          [(cs "Z.sh", [cs "__bar__() \x7b"])])).unknown_calls.filter
      (fun e => decide (e.1 = cs "__bar__")))
        = [(cs "__bar__", reasonNeeds (cs "Z.sh"))] ∧
      cs "Z.sh" ∈ (mainSplit (analyze_script [cs "__bar__ arg"]
        [(cs "Z.sh", [cs "__bar__() \x7b"])]
        (build_global_function_map
          [(cs "Z.sh", [cs "__bar__() \x7b"])])).unknown_calls).1 :=
  (C3_global_resolution [cs "__bar__ arg"] [(cs "Z.sh", [cs "__bar__() \x7b"])]
    (cs "__bar__") (by decide) (by decide) (by decide)).1 (cs "Z.sh") (by decide)

/-! ## Dictionary-fold lemmas (for the graph builder claims) -/

lemma lookupD_dictInsert {β : Type} (b k : Str) (v : β) (d : List (Str × β)) :
    lookupD b (dictInsert k v d) = if k = b then some v else lookupD b d := by
  induction d with
  | nil => simp [dictInsert, lookupD]
  | cons e rest ih =>
    obtain ⟨k0, v0⟩ := e
    rw [dictInsert]
    by_cases h0 : k0 = k
    · rw [if_pos h0]
      subst h0
      by_cases hb : k0 = b <;> simp [lookupD, hb]
    · rw [if_neg h0]
      by_cases hb : k0 = b
      · subst hb
        have hkb : ¬k = k0 := fun h => h0 h.symm
        simp [lookupD, hkb]
      · simp [lookupD, hb, ih]

lemma lookupD_foldl_insert {α β : Type} (key : α → Str) (val : α → β) (b : Str) :
    ∀ (l : List α) (g0 : List (Str × β)),
      lookupD b (l.foldl (fun g e => dictInsert (key e) (val e) g) g0) =
        match l.reverse.find? (fun e => decide (key e = b)) with
        | some e => some (val e)
        | none => lookupD b g0 := by
  intro l
  induction l with
  | nil => intro g0; rfl
  | cons e rest ih =>
    intro g0
    rw [List.foldl_cons, ih, List.reverse_cons, List.find?_append]
    rcases hf : rest.reverse.find? (fun e => decide (key e = b)) with _ | e1
    · rcases hfe : [e].find? (fun e => decide (key e = b)) with _ | e2
      · have hne : ¬key e = b := by
          rcases List.find?_eq_none.mp hfe e (by simp) with h
          simpa using h
        simp [Option.or, lookupD_dictInsert, hne]
      · have h2 := List.find?_some hfe
        have hmem := List.mem_of_find?_eq_some hfe
        have he2 : e2 = e := by simpa using hmem
        subst he2
        have hkey : key e2 = b := by simpa using h2
        simp [Option.or, lookupD_dictInsert, hkey]
    · simp [Option.or]

lemma foldl_pair {α β γ : Type} (f : β → α → β) (s : γ → α → γ) :
    ∀ (l : List α) (b0 : β) (c0 : γ),
      l.foldl (fun acc x => (f acc.1 x, s acc.2 x)) (b0, c0) =
        (l.foldl f b0, l.foldl s c0) := by
  intro l
  induction l with
  | nil => intro b0 c0; rfl
  | cons x rest ih => intro b0 c0; rw [List.foldl_cons, ih]; rfl

lemma build_dependency_graph_eq (files : List (Str × List Str)) :
    build_dependency_graph files =
      (files.foldl (fun g f =>
          dictInsert (basename f.1) (parse_dependencies f.2) g) [],
       files.foldl (fun fp f => dictInsert (basename f.1) f.1 fp) []) := by
  rw [build_dependency_graph]
  exact foldl_pair (fun g f => dictInsert (basename f.1) (parse_dependencies f.2) g)
    (fun fp f => dictInsert (basename f.1) f.1 fp) files [] []

lemma mem_keys_dictInsert {β : Type} {b k : Str} {v : β} {d : List (Str × β)} :
    b ∈ (dictInsert k v d).map Prod.fst ↔ b = k ∨ b ∈ d.map Prod.fst := by
  induction d with
  | nil =>
    simp only [dictInsert, List.map_cons, List.map_nil, List.mem_singleton,
      List.not_mem_nil, or_false]
  | cons e rest ih =>
    obtain ⟨k0, v0⟩ := e
    rw [dictInsert]
    by_cases h0 : k0 = k
    · subst h0
      rw [if_pos rfl]
      simp only [List.map_cons, List.mem_cons]
      tauto
    · simp only [if_neg h0, List.map_cons, List.mem_cons, ih]
      tauto

lemma nodup_keys_dictInsert {β : Type} {k : Str} {v : β} {d : List (Str × β)}
    (h : (d.map Prod.fst).Nodup) : ((dictInsert k v d).map Prod.fst).Nodup := by
  induction d with
  | nil =>
    simp only [dictInsert, List.map_cons, List.map_nil]
    exact List.nodup_singleton k
  | cons e rest ih =>
    obtain ⟨k0, v0⟩ := e
    rw [dictInsert]
    by_cases h0 : k0 = k
    · subst h0
      rw [if_pos rfl]
      simp only [List.map_cons] at h ⊢
      exact h
    · simp only [List.map_cons, List.nodup_cons] at h ⊢
      rw [if_neg h0]
      simp only [List.map_cons, List.nodup_cons, mem_keys_dictInsert]
      refine ⟨?_, ih h.2⟩
      rintro (rfl | hm)
      · exact h0 rfl
      · exact h.1 hm

lemma nodup_keys_foldl_insert {α β : Type} (key : α → Str) (val : α → β)
    (l : List α) :
    ∀ (g0 : List (Str × β)), (g0.map Prod.fst).Nodup →
      ((l.foldl (fun g e => dictInsert (key e) (val e) g) g0).map
        Prod.fst).Nodup := by
  induction l with
  | nil => intro g0 h; exact h
  | cons e rest ih =>
    intro g0 h
    rw [List.foldl_cons]
    exact ih _ (nodup_keys_dictInsert h)

lemma countP_eq_one_of_nodup_mem {l : List Str} (hnd : l.Nodup) {b : Str}
    (hm : b ∈ l) : l.countP (fun k => decide (k = b)) = 1 := by
  induction l with
  | nil => exact absurd hm (by simp)
  | cons a rest ih =>
    obtain ⟨hna, hnd2⟩ := List.nodup_cons.mp hnd
    rcases List.mem_cons.mp hm with rfl | hrest
    · rw [List.countP_cons]
      have hz : rest.countP (fun k => decide (k = b)) = 0 :=
        List.countP_eq_zero.mpr (fun x hx => by
          simp only [decide_eq_true_eq]
          exact fun hh => hna (hh ▸ hx))
      simp [hz]
    · rw [List.countP_cons]
      have hab : (decide (a = b)) = false := by
        simp only [decide_eq_false_iff_not]
        exact fun hh => hna (hh ▸ hrest)
      simp [ih hnd2 hrest, hab]

lemma lookupD_some_mem_keys {β : Type} {b : Str} {d : List (Str × β)} {v : β}
    (h : lookupD b d = some v) : b ∈ d.map Prod.fst := by
  induction d with
  | nil => exact absurd h (by simp [lookupD])
  | cons e rest ih =>
    obtain ⟨k0, v0⟩ := e
    rw [lookupD] at h
    by_cases h0 : k0 = b
    · simp only [List.map_cons, List.mem_cons]
      exact Or.inl h0.symm
    · rw [if_neg h0] at h
      simp only [List.map_cons, List.mem_cons]
      exact Or.inr (ih h)

/-! ## Claim C9 -/

/-- C9: the dependency graph is keyed by basename only; when several
enumerated files share a basename, the graph keeps exactly one node for it,
and both its dependency set and its recorded path are those of the file
enumerated last — the earlier file's edges are overwritten, not merged. -/
theorem C9_basename_last_wins (pre post : List (Str × List Str))
    (f2 : Str × List Str) (b : Str) (hb : basename f2.1 = b)
    (hpost : ∀ x ∈ post, basename x.1 ≠ b) :
    lookupD b (build_dependency_graph (pre ++ f2 :: post)).1
        = some (parse_dependencies f2.2) ∧
    lookupD b (build_dependency_graph (pre ++ f2 :: post)).2 = some f2.1 ∧
    ((build_dependency_graph (pre ++ f2 :: post)).1.map Prod.fst).countP
        (fun k => decide (k = b)) = 1 := by
  have hfind : (pre ++ f2 :: post).reverse.find?
      (fun e => decide (basename e.1 = b)) = some f2 := by
    have h1 : post.reverse.find? (fun e => decide (basename e.1 = b)) = none :=
      List.find?_eq_none.mpr
        (fun x hx => by simpa using hpost x (List.mem_reverse.mp hx))
    rw [List.reverse_append, List.reverse_cons, List.find?_append,
      List.find?_append, h1]
    simp [List.find?, hb]
  rw [build_dependency_graph_eq]
  have hg := lookupD_foldl_insert (fun (e : Str × List Str) => basename e.1)
    (fun e => parse_dependencies e.2) b (pre ++ f2 :: post) []
  rw [hfind] at hg
  have hp := lookupD_foldl_insert (fun (e : Str × List Str) => basename e.1)
    (fun e => e.1) b (pre ++ f2 :: post) []
  rw [hfind] at hp
  refine ⟨hg, hp, ?_⟩
  have hnd : (((pre ++ f2 :: post).foldl (fun g f =>
      dictInsert (basename f.1) (parse_dependencies f.2) g) []).map
        Prod.fst).Nodup :=
    nodup_keys_foldl_insert (fun (e : Str × List Str) => basename e.1)
      (fun e => parse_dependencies e.2) (pre ++ f2 :: post) [] (by simp)
  exact countP_eq_one_of_nodup_mem hnd (lookupD_some_mem_keys hg)

/-- C9 (witness): two files `dir1/A.sh` and `dir2/A.sh` — the node `A.sh`
carries the dependencies and path of the later `dir2/A.sh`. -/
theorem C9_basename_last_wins_witness :
    lookupD (cs "A.sh") (build_dependency_graph
        [(cs "dir1/A.sh", [cs "source \"$\x7bUTILITYPATH\x7d/B.sh\""]),
         (cs "dir2/A.sh", [cs "source \"$\x7bUTILITYPATH\x7d/C.sh\""])]).1
      = some (parse_dependencies [cs "source \"$\x7bUTILITYPATH\x7d/C.sh\""]) ∧
    lookupD (cs "A.sh") (build_dependency_graph
        [(cs "dir1/A.sh", [cs "source \"$\x7bUTILITYPATH\x7d/B.sh\""]),
         (cs "dir2/A.sh", [cs "source \"$\x7bUTILITYPATH\x7d/C.sh\""])]).2
      = some (cs "dir2/A.sh") ∧
    ((build_dependency_graph
        [(cs "dir1/A.sh", [cs "source \"$\x7bUTILITYPATH\x7d/B.sh\""]),
         (cs "dir2/A.sh", [cs "source \"$\x7bUTILITYPATH\x7d/C.sh\""])]).1.map
      Prod.fst).countP (fun k => decide (k = cs "A.sh")) = 1 :=
  C9_basename_last_wins
    [(cs "dir1/A.sh", [cs "source \"$\x7bUTILITYPATH\x7d/B.sh\""])] []
    (cs "dir2/A.sh", [cs "source \"$\x7bUTILITYPATH\x7d/C.sh\""]) (cs "A.sh")
    (by decide) (by simp)

/-! ## Claim C6 -/

lemma build_dependency_graph_onread_eq
    (files : List (Str × Except Unit (List Str))) :
    build_dependency_graph_onread files =
      (files.foldl (fun g f =>
          dictInsert (basename f.1) (parse_dependencies_onread f.2) g) [],
       files.foldl (fun fp f => dictInsert (basename f.1) f.1 fp) []) := by
  rw [build_dependency_graph_onread]
  exact foldl_pair
    (fun g f => dictInsert (basename f.1) (parse_dependencies_onread f.2) g)
    (fun fp f => dictInsert (basename f.1) f.1 fp) files [] []

lemma buildGlobalMapLoop_error :
    ∀ (utilities : List (Str × Except Unit (List Str)))
      (gm : List (Str × List Str)),
      (∃ u ∈ utilities, u.2 = Except.error ()) →
      buildGlobalMapLoop utilities gm = Except.error () := by
  intro utilities
  induction utilities with
  | nil =>
    intro gm h
    obtain ⟨u, hu, _⟩ := h
    exact absurd hu (by simp)
  | cons u rest ih =>
    intro gm h
    rcases hrd : u.2 with e | lines
    · obtain rfl : e = () := rfl
      simp [buildGlobalMapLoop, parse_functions_in_file_onread, hrd]
    · obtain ⟨u2, hu2, herr⟩ := h
      rcases List.mem_cons.mp hu2 with rfl | hrest
      · rw [hrd] at herr
        exact absurd herr (by simp)
      · simp only [buildGlobalMapLoop, parse_functions_in_file_onread, hrd]
        exact ih _ ⟨u2, hrest, herr⟩

/-- C6 (counterexample): with utility `A.sh` unreadable and `B.sh` readable,
the resolver's global-map construction aborts with the propagated error, so
`B.sh` is never analyzed — while the same function defined in a readable
corpus is indexed. -/
theorem C6_counterexample :
    build_global_function_map_onread
        [(cs "A.sh", Except.error ()),
         (cs "B.sh", Except.ok [cs "__fnb__() \x7b"])]
      = Except.error () ∧
    build_global_function_map [(cs "B.sh", [cs "__fnb__() \x7b"])]
      = [(cs "__fnb__", [cs "B.sh"])] := by
  constructor
  · rfl
  · decide

/-- C6 (amended): the two tools differ. In the cycle checker an unreadable
file is skipped silently (its `except` handler yields an empty dependency
set, with no logging) and every enumerated file still gets its graph node; in
the call resolver a read error raised while parsing one utility file
propagates out of the global-map loop and aborts the analysis of the whole
remaining corpus. -/
theorem C6_read_failure_behavior :
    (∀ (files : List (Str × Except Unit (List Str))) p r, (p, r) ∈ files →
        ∃ v, lookupD (basename p) (build_dependency_graph_onread files).1
          = some v) ∧
    parse_dependencies_onread (Except.error ()) = [] ∧
    (∀ utilities, (∃ u ∈ utilities, u.2 = Except.error ()) →
        build_global_function_map_onread utilities = Except.error ()) := by
  refine ⟨?_, rfl, ?_⟩
  · intro files p r hmem
    rw [build_dependency_graph_onread_eq]
    have hg := lookupD_foldl_insert
      (fun (e : Str × Except Unit (List Str)) => basename e.1)
      (fun e => parse_dependencies_onread e.2) (basename p) files []
    rcases hf : files.reverse.find?
        (fun e => decide (basename e.1 = basename p)) with _ | e
    · have hsome : (files.reverse.find?
          (fun e => decide (basename e.1 = basename p))).isSome :=
        List.find?_isSome.mpr ⟨(p, r), List.mem_reverse.mpr hmem, by simp⟩
      rw [hf] at hsome
      exact absurd hsome (by simp)
    · rw [hf] at hg
      exact ⟨_, hg⟩
  · intro utilities h
    rw [build_global_function_map_onread]
    exact buildGlobalMapLoop_error utilities [] h

/-- C6 (witness): the amended behavior at a concrete corpus — the cycle
checker still has a node for the unreadable `bad.sh`, and the resolver aborts
on it. -/
theorem C6_read_failure_witness :
    (∃ v, lookupD (basename (cs "d/bad.sh"))
        (build_dependency_graph_onread
          [(cs "d/bad.sh", Except.error ()),
           (cs "d/ok.sh", Except.ok [])]).1 = some v) ∧
    build_global_function_map_onread
        [(cs "d/bad.sh", Except.error ()), (cs "d/ok.sh", Except.ok [])]
      = Except.error () :=
  ⟨C6_read_failure_behavior.1
      [(cs "d/bad.sh", Except.error ()), (cs "d/ok.sh", Except.ok [])]
      (cs "d/bad.sh") (Except.error ()) (by simp),
    C6_read_failure_behavior.2.2
      [(cs "d/bad.sh", Except.error ()), (cs "d/ok.sh", Except.ok [])]
      ⟨(cs "d/bad.sh", Except.error ()), by simp, rfl⟩⟩

/-! ## Claims C1, C2 -/

/-- C1 (counterexample): on the graph `A→B, B→C, C→A` exactly one cycle is
reported, but its displayed path is `C -> B -> A -> C` — not the claimed
`A -> B -> C -> A` — and its consecutive pair `(C, B)` is not an edge of the
graph. -/
theorem C1_counterexample :
    cyclesOf exGraphABC = [[cs "C", cs "B", cs "A"]] ∧
      (cyclesOf exGraphABC).map cycleDisplay
        = [[cs "C", cs "B", cs "A", cs "C"]] ∧
      [[cs "C", cs "B", cs "A", cs "C"]] ≠ [[cs "A", cs "B", cs "C", cs "A"]] ∧
      hasEdge exGraphABC (cs "C") (cs "B") = false := by
  refine ⟨by decide, by decide, by decide, by decide⟩

/-- C1 (amended): each strongly-connected component of size ≥ 2 found by the
cycle detector is reported as a closed path — the component's node sequence
with its first node repeated at the end — but consecutive pairs of that
sequence need not be edges of the graph: Tarjan's stack pops the component in
reverse traversal order.  For the graph `\x7bA:\x7bB\x7d, B:\x7bC\x7d, C:\x7bA\x7d\x7d`
exactly one cycle is reported, its path is `C -> B -> A -> C`, and the
reverse of that path is a genuine closed walk of the graph. -/
theorem C1_scc_closed_path :
    (∀ g c, c ∈ cyclesOf g →
        2 ≤ c.length ∧ ∃ h t, c = h :: t ∧ cycleDisplay c = c ++ [h]) ∧
      cyclesOf exGraphABC = [[cs "C", cs "B", cs "A"]] ∧
      cycleDisplay [cs "C", cs "B", cs "A"] = [cs "C", cs "B", cs "A", cs "C"] ∧
      isChain exGraphABC [cs "C", cs "B", cs "A", cs "C"].reverse = true := by
  refine ⟨?_, by decide, by decide, by decide⟩
  intro g c hc
  obtain ⟨hmem, hlen⟩ := List.mem_filter.mp hc
  have hlen2 : 1 < c.length := by simpa using hlen
  rcases c with _ | ⟨h, t⟩
  · simp at hlen2
  · exact ⟨by simpa using hlen2, h, t, rfl, rfl⟩

/-- C1 (witness): the closed-path shape applied to the component found in the
Scenario A graph. -/
theorem C1_scc_closed_path_witness :
    2 ≤ ([cs "C", cs "B", cs "A"] : List Str).length ∧
      ∃ h t, ([cs "C", cs "B", cs "A"] : List Str) = h :: t ∧
        cycleDisplay [cs "C", cs "B", cs "A"] = [cs "C", cs "B", cs "A"] ++ [h] :=
  C1_scc_closed_path.1 exGraphABC [cs "C", cs "B", cs "A"] (by decide)

/-- C2 (counterexample): a corpus with an unknown call (`__zzz__` is defined
nowhere) produces a finding, yet the resolver's exit status is 0 —
`VerifySourceCalls.main` ends with an unconditional `sys.exit(0)`. -/
theorem C2_counterexample :
    (verify_main [[cs "__zzz__ arg"]] []).1
        = [⟨[(cs "__zzz__", reasonUnknown)], [], []⟩] ∧
      (verify_main [[cs "__zzz__ arg"]] []).2 = 0 := by
  refine ⟨by decide, rfl⟩

/-- C2 (amended): the cycle checker exits 0 exactly when no strongly-connected
component of size ≥ 2 exists (and 1 otherwise), while the call resolver always
exits 0 regardless of its findings. -/
theorem C2_exit_codes :
    (∀ files : List (Str × List Str),
        dependency_cycle_main_exit files = 0 ↔
          ∀ c ∈ find_strongly_connected_components
            (build_dependency_graph files).1, c.length ≤ 1) ∧
      (∀ (scripts : List (List Str)) (utilities : List (Str × List Str)),
        (verify_main scripts utilities).2 = 0) := by
  constructor
  · intro files
    rw [dependency_cycle_main_exit]
    constructor
    · intro h c hc
      by_cases hz : (cyclesOf (build_dependency_graph files).1).length = 0
      · have hnil : cyclesOf (build_dependency_graph files).1 = [] :=
          List.length_eq_zero.mp hz
        have := List.filter_eq_nil_iff.mp hnil c hc
        simpa using this
      · rw [if_neg hz] at h
        exact absurd h (by simp)
    · intro h
      have hnil : cyclesOf (build_dependency_graph files).1 = [] :=
        List.filter_eq_nil_iff.mpr (fun c hc => by simpa using h c hc)
      rw [hnil]
      rfl
  · intro scripts utilities
    rfl

/-- C2 (witness): the exit-code theorem applied to the empty corpus. -/
theorem C2_exit_codes_witness :
    (verify_main [] []).2 = 0 ∧ dependency_cycle_main_exit [] = 0 :=
  ⟨C2_exit_codes.2 [] [], (C2_exit_codes.1 []).mpr (by decide)⟩

end ProxmoxCheck
